import Mathlib

/-!
Verification of the Ollama proxy wrapper's streaming observability pipeline.

This file gives a shallow embedding, in Lean, of the Go code of the
`Ollama_Proxy_Wrapper` repository: the prompt categorizer, the request parser,
the streaming response interceptor with its idempotent finalization, the
metrics/analytics record construction, the bounded analytics ingestion queue,
the retention sweep and search over the analytics store, the enhanced
statistics endpoint, and the admission-control semaphore.  Strings are
modelled as `List Char`; Go's `float64` fields are modelled with exact
rational arithmetic (the executable fraction type `Qv`), which agrees with
`float64` on every concrete value appearing in the theorems below; machine
integers stay in `Nat`/`Int`
with explicit `% 2^32` where Go's `uint32` arithmetic wraps (the MD5 core).
Stateful Go code (the streaming body, the categorizer's category map, the
semaphore) is embedded as explicit state passing / step relations.
-/

namespace OllamaProxy

/-- Go `strings.HasPrefix` over character lists: `pat` leads `s`. -/
def leadsWith : List Char → List Char → Bool
  | [], _ => true
  | _ :: _, [] => false
  | p :: ps, c :: cs => p == c && leadsWith ps cs

/-- Substring test over character lists (Go `strings.Contains`; also the
match test for a regular expression that is a plain literal). -/
def containsSeg (pat : List Char) : List Char → Bool
  | [] => leadsWith pat []
  | c :: cs => leadsWith pat (c :: cs) || containsSeg pat cs

/-- Go `strings.TrimPrefix`: drop `pat` when it leads `s`, else `s` unchanged. -/
def trimLead (pat s : List Char) : List Char :=
  if leadsWith pat s then s.drop pat.length else s

/-- ASCII whitespace recognized by Go `unicode.IsSpace` (the ASCII part,
which is all the prompts in the claims use). -/
def isSpaceCh (c : Char) : Bool :=
  c.toNat == 32 || (9 ≤ c.toNat && c.toNat ≤ 13)

/-- Helper for `fieldsOf`: accumulates the current word in reverse. -/
def fieldsAux : List Char → List Char → List (List Char)
  | [], cur => if cur.isEmpty then [] else [cur.reverse]
  | c :: cs, cur =>
    if isSpaceCh c then
      if cur.isEmpty then fieldsAux cs [] else cur.reverse :: fieldsAux cs []
    else fieldsAux cs (c :: cur)

/-- Go `strings.Fields`: split around runs of whitespace. -/
def fieldsOf (s : List Char) : List (List Char) := fieldsAux s []

/-- Go `strings.ToLower` (ASCII case mapping, via `Char.toLower`). -/
def lowerize (s : List Char) : List Char := s.map Char.toLower

/-- Go `strings.Split(s, "\n")`: the list of segments between newlines
(always nonempty, possibly containing empty segments). -/
def splitNl : List Char → List (List Char)
  | [] => [[]]
  | c :: cs =>
    if c == '\n' then [] :: splitNl cs
    else
      match splitNl cs with
      | p :: ps => (c :: p) :: ps
      | [] => [[c]]

/-- Go `truncate(s, maxLen)` from analytics.go: limit string length. -/
def truncate (s : List Char) (maxLen : Nat) : List Char :=
  if s.length ≤ maxLen then s else s.take maxLen

/-- Decimal digit test. -/
def isDigitCh (c : Char) : Bool := 48 ≤ c.toNat && c.toNat ≤ 57

/-- Split a leading run of decimal digits off a character list. -/
def digitSplit : List Char → (List Char × List Char)
  | [] => ([], [])
  | c :: cs =>
    if isDigitCh c then
      let (ds, rest) := digitSplit cs
      (c :: ds, rest)
    else ([], c :: cs)

/-- Numeric value of a digit string. -/
def natOfDigits (ds : List Char) : Nat :=
  ds.foldl (fun a c => a * 10 + (c.toNat - 48)) 0

/-- Exact rational numbers as unreduced integer fractions.  This models Go's
`float64` fields: on every concrete value the claims exercise, the `float64`
computation is exact and agrees with exact rational arithmetic.  Fractions
are kept unreduced so that every operation is plain integer arithmetic,
with equality and order decided by cross-multiplication. -/
structure Qv where
  num : Int
  den : Int

namespace Qv

/-- Embed an integer. -/
def ofInt (n : Int) : Qv := ⟨n, 1⟩

/-- Embed a natural number. -/
def ofNat (n : Nat) : Qv := ⟨(n : Int), 1⟩

/-- Integral power of ten (denominators of decimal literals). -/
def pow10 : Nat → Int
  | 0 => 1
  | k + 1 => 10 * pow10 k

/-- Addition of fractions. -/
def add (a b : Qv) : Qv := ⟨a.num * b.den + b.num * a.den, a.den * b.den⟩

/-- Multiplication of fractions. -/
def mul (a b : Qv) : Qv := ⟨a.num * b.num, a.den * b.den⟩

/-- Division of fractions (the code only divides by guarded-positive
values, matching Go where a zero divisor would produce an infinity). -/
def div (a b : Qv) : Qv := ⟨a.num * b.den, a.den * b.num⟩

/-- Negation. -/
def neg (a : Qv) : Qv := ⟨-a.num, a.den⟩

/-- Subtraction of fractions. -/
def sub (a b : Qv) : Qv := ⟨a.num * b.den - b.num * a.den, a.den * b.den⟩

/-- Value equality of two fractions (`a/b = c/d` iff `a*d = c*b`). -/
def eqb (a b : Qv) : Bool := a.num * b.den == b.num * a.den

/-- Value order of two fractions, correct for either denominator sign. -/
def ltb (a b : Qv) : Bool :=
  if 0 < a.den * b.den then decide (a.num * b.den < b.num * a.den)
  else if a.den * b.den < 0 then decide (b.num * a.den < a.num * b.den)
  else false

/-- Go `int(f)`: truncation toward zero. -/
def trunc (a : Qv) : Int := a.num.tdiv a.den

/-- Sum of a list of fractions. -/
def sum (l : List Qv) : Qv := l.foldl add (ofNat 0)

end Qv

/-- JSON values, as produced by Go `encoding/json` unmarshalling into
`interface⁠`-typed data: numbers carry their exact numeric value. -/
inductive Jval where
  | jnull : Jval
  | jbool : Bool → Jval
  | jnum : Qv → Jval
  | jstr : List Char → Jval
  | jarr : List Jval → Jval
  | jobj : List (List Char × Jval) → Jval

/-- Field lookup in a parsed JSON object; a duplicated key resolves to its
last occurrence, as in Go's map-building unmarshaller. -/
def objGet (fs : List (List Char × Jval)) (k : List Char) : Option Jval :=
  match fs with
  | [] => none
  | (k2, v) :: rest =>
    match objGet rest k with
    | some v2 => some v2
    | none => if k2 == k then some v else none

/-- Value of a hexadecimal digit character. -/
def hexCharVal (c : Char) : Option Nat :=
  let n := c.toNat
  if 48 ≤ n && n ≤ 57 then some (n - 48)
  else if 97 ≤ n && n ≤ 102 then some (n - 87)
  else if 65 ≤ n && n ≤ 70 then some (n - 55)
  else none

/-- JSON string body: characters after the opening quote, up to and
consuming the closing quote; standard escapes. -/
def parseStrBody : List Char → Option (List Char × List Char)
  | [] => none
  | c :: cs =>
    if c == '"' then some ([], cs)
    else if c == '\\' then
      match cs with
      | [] => none
      | e :: cs2 =>
        if e == 'u' then
          match cs2 with
          | h1 :: h2 :: h3 :: h4 :: cs3 =>
            match hexCharVal h1, hexCharVal h2, hexCharVal h3, hexCharVal h4 with
            | some a, some b, some c4, some d =>
              match parseStrBody cs3 with
              | some (content, rest) =>
                some (Char.ofNat (4096 * a + 256 * b + 16 * c4 + d) :: content, rest)
              | none => none
            | _, _, _, _ => none
          | _ => none
        else
          let esc : Option Char :=
            if e == '"' then some '"'
            else if e == '\\' then some '\\'
            else if e == '/' then some '/'
            else if e == 'n' then some '\n'
            else if e == 't' then some '\t'
            else if e == 'r' then some '\r'
            else if e == 'b' then some (Char.ofNat 8)
            else if e == 'f' then some (Char.ofNat 12)
            else none
          match esc with
          | some ch =>
            match parseStrBody cs2 with
            | some (content, rest) => some (ch :: content, rest)
            | none => none
          | none => none
    else if c.toNat < 32 then none
    else
      match parseStrBody cs with
      | some (content, rest) => some (c :: content, rest)
      | none => none

/-- JSON number (sign, integer part, optional fraction, optional exponent),
returned exactly as a rational. -/
def parseNum (s : List Char) : Option (Qv × List Char) :=
  let negPair : Bool × List Char :=
    match s with
    | c :: cs => if c == '-' then (true, cs) else (false, s)
    | [] => (false, s)
  let neg := negPair.1
  let (ints, s2) := digitSplit negPair.2
  if ints.isEmpty then none else
  let frPair : Option (List Char) × List Char :=
    match s2 with
    | c :: cs =>
      if c == '.' then
        let (ds, rest) := digitSplit cs
        (some ds, rest)
      else (none, s2)
    | [] => (none, s2)
  match frPair.1 with
  | some [] => none
  | _ =>
    let fracs := (frPair.1).getD []
    let s3 := frPair.2
    let exPair : Option (Bool × List Char) × List Char :=
      match s3 with
      | c :: cs =>
        if c == 'e' || c == 'E' then
          match cs with
          | c2 :: cs2 =>
            if c2 == '-' then
              let (ds, rest) := digitSplit cs2
              (some (true, ds), rest)
            else if c2 == '+' then
              let (ds, rest) := digitSplit cs2
              (some (false, ds), rest)
            else
              let (ds, rest) := digitSplit cs
              (some (false, ds), rest)
          | [] => (some (false, []), [])
        else (none, s3)
      | [] => (none, s3)
    match exPair.1 with
    | some (_, []) => none
    | _ =>
      let base : Qv :=
        Qv.add (Qv.ofNat (natOfDigits ints))
          ⟨(natOfDigits fracs : Int), Qv.pow10 fracs.length⟩
      let withExp : Qv :=
        match exPair.1 with
        | some (true, ds) => Qv.div base (Qv.ofInt (Qv.pow10 (natOfDigits ds)))
        | some (false, ds) => Qv.mul base (Qv.ofInt (Qv.pow10 (natOfDigits ds)))
        | none => base
      some ((if neg then Qv.neg withExp else withExp), exPair.2)

/-- JSON whitespace skipping. -/
def skipWs : List Char → List Char
  | [] => []
  | c :: cs =>
    if c == ' ' || c == '\t' || c == '\n' || c == '\r' then skipWs cs else c :: cs

mutual

/-- Recursive-descent JSON value parser with fuel (the fuel is ample at the
top entry point, so it never runs out on genuine input). -/
def parseVal : Nat → List Char → Option (Jval × List Char)
  | 0, _ => none
  | fuel + 1, s =>
    match skipWs s with
    | [] => none
    | c :: cs =>
      if c == '"' then
        match parseStrBody cs with
        | some (str, rest) => some (Jval.jstr str, rest)
        | none => none
      else if c == Char.ofNat 123 then
        match skipWs cs with
        | c2 :: cs2 =>
          if c2 == Char.ofNat 125 then some (Jval.jobj [], cs2)
          else parseMembers fuel (skipWs cs) []
        | [] => none
      else if c == '[' then
        match skipWs cs with
        | c2 :: cs2 =>
          if c2 == ']' then some (Jval.jarr [], cs2)
          else parseElems fuel (skipWs cs) []
        | [] => none
      else if c == 't' then
        if leadsWith ['r', 'u', 'e'] cs then some (Jval.jbool true, cs.drop 3) else none
      else if c == 'f' then
        if leadsWith ['a', 'l', 's', 'e'] cs then some (Jval.jbool false, cs.drop 4) else none
      else if c == 'n' then
        if leadsWith ['u', 'l', 'l'] cs then some (Jval.jnull, cs.drop 3) else none
      else
        match parseNum (c :: cs) with
        | some (q, rest) => some (Jval.jnum q, rest)
        | none => none

/-- Members of a JSON object (after the opening brace, at least one member). -/
def parseMembers : Nat → List Char → List (List Char × Jval) → Option (Jval × List Char)
  | 0, _, _ => none
  | fuel + 1, s, acc =>
    match skipWs s with
    | c :: cs =>
      if c == '"' then
        match parseStrBody cs with
        | some (key, rest) =>
          match skipWs rest with
          | ':' :: rest2 =>
            match parseVal fuel rest2 with
            | some (v, rest3) =>
              match skipWs rest3 with
              | c5 :: rest5 =>
                if c5 == ',' then parseMembers fuel rest5 (acc ++ [(key, v)])
                else if c5 == Char.ofNat 125 then some (Jval.jobj (acc ++ [(key, v)]), rest5)
                else none
              | [] => none
            | none => none
          | _ => none
        | none => none
      else none
    | [] => none

/-- Elements of a JSON array (after the opening bracket, at least one element). -/
def parseElems : Nat → List Char → List Jval → Option (Jval × List Char)
  | 0, _, _ => none
  | fuel + 1, s, acc =>
    match parseVal fuel s with
    | some (v, rest) =>
      match skipWs rest with
      | c :: rest2 =>
        if c == ',' then parseElems fuel rest2 (acc ++ [v])
        else if c == ']' then some (Jval.jarr (acc ++ [v]), rest2)
        else none
      | [] => none
    | none => none

end

/-- Model of Go `json.Unmarshal` applied to a whole byte string: parses one
JSON value and demands only whitespace after it. -/
def jsonParse (s : List Char) : Option Jval :=
  match parseVal (2 * s.length + 2) s with
  | some (v, rest) => if (skipWs rest).isEmpty then some v else none
  | none => none

/-- Reduction modulo `2^32`, Go `uint32` wrap-around. -/
def m32 (n : Nat) : Nat := n % 4294967296

/-- 32-bit left rotation (operand below `2^32`, shift in `1..31`). -/
def rotl32 (x s : Nat) : Nat :=
  m32 (x <<< s) ||| (x >>> (32 - s))

/-- The 64 MD5 sine-derived constants (crypto/md5's table). -/
def md5K : List Nat :=
  [0xd76aa478, 0xe8c7b756, 0x242070db, 0xc1bdceee,
   0xf57c0faf, 0x4787c62a, 0xa8304613, 0xfd469501,
   0x698098d8, 0x8b44f7af, 0xffff5bb1, 0x895cd7be,
   0x6b901122, 0xfd987193, 0xa679438e, 0x49b40821,
   0xf61e2562, 0xc040b340, 0x265e5a51, 0xe9b6c7aa,
   0xd62f105d, 0x02441453, 0xd8a1e681, 0xe7d3fbc8,
   0x21e1cde6, 0xc33707d6, 0xf4d50d87, 0x455a14ed,
   0xa9e3e905, 0xfcefa3f8, 0x676f02d9, 0x8d2a4c8a,
   0xfffa3942, 0x8771f681, 0x6d9d6122, 0xfde5380c,
   0xa4beea44, 0x4bdecfa9, 0xf6bb4b60, 0xbebfbc70,
   0x289b7ec6, 0xeaa127fa, 0xd4ef3085, 0x04881d05,
   0xd9d4d039, 0xe6db99e5, 0x1fa27cf8, 0xc4ac5665,
   0xf4292244, 0x432aff97, 0xab9423a7, 0xfc93a039,
   0x655b59c3, 0x8f0ccc92, 0xffeff47d, 0x85845dd1,
   0x6fa87e4f, 0xfe2ce6e0, 0xa3014314, 0x4e0811a1,
   0xf7537e82, 0xbd3af235, 0x2ad7d2bb, 0xeb86d391]

/-- The 64 MD5 per-round rotation amounts. -/
def md5S : List Nat :=
  [7, 12, 17, 22, 7, 12, 17, 22, 7, 12, 17, 22, 7, 12, 17, 22,
   5, 9, 14, 20, 5, 9, 14, 20, 5, 9, 14, 20, 5, 9, 14, 20,
   4, 11, 16, 23, 4, 11, 16, 23, 4, 11, 16, 23, 4, 11, 16, 23,
   6, 10, 15, 21, 6, 10, 15, 21, 6, 10, 15, 21, 6, 10, 15, 21]

/-- Little-endian bytes of a value (`count` bytes). -/
def leBytes : Nat → Nat → List Nat
  | 0, _ => []
  | k + 1, v => (v % 256) :: leBytes k (v / 256)

/-- MD5 padding: `0x80`, zeros to 56 mod 64, then the 64-bit LE bit length. -/
def md5pad (msg : List Nat) : List Nat :=
  let len := msg.length
  let padZeros := (119 - len % 64) % 64
  msg ++ [128] ++ List.replicate padZeros 0 ++ leBytes 8 (len * 8)

/-- Group bytes into little-endian 32-bit words. -/
def toWords : List Nat → List Nat
  | b0 :: b1 :: b2 :: b3 :: rest =>
    (b0 + 256 * b1 + 65536 * b2 + 16777216 * b3) :: toWords rest
  | _ => []

/-- Group a word list into 16-word blocks. -/
def chunk16 (ws : List Nat) : List (List Nat) :=
  if h : ws.isEmpty then []
  else ws.take 16 :: chunk16 (ws.drop 16)
termination_by ws.length
decreasing_by
  simp only [List.isEmpty_iff] at h
  cases ws with
  | nil => exact absurd rfl h
  | cons a t => simp [List.length_drop]; omega

/-- One iteration of the MD5 compression function. -/
def md5round (M : List Nat) (st : Nat × Nat × Nat × Nat) (i : Nat) : Nat × Nat × Nat × Nat :=
  let A := st.1
  let B := st.2.1
  let C := st.2.2.1
  let D := st.2.2.2
  let F :=
    if i < 16 then (B &&& C) ||| ((B ^^^ 4294967295) &&& D)
    else if i < 32 then (D &&& B) ||| ((D ^^^ 4294967295) &&& C)
    else if i < 48 then B ^^^ C ^^^ D
    else C ^^^ (B ||| (D ^^^ 4294967295))
  let g :=
    if i < 16 then i
    else if i < 32 then (5 * i + 1) % 16
    else if i < 48 then (3 * i + 5) % 16
    else (7 * i) % 16
  let tmp := m32 (F + A + md5K.getD i 0 + M.getD g 0)
  (D, m32 (B + rotl32 tmp (md5S.getD i 0)), B, C)

/-- Process one 16-word block of the MD5 state. -/
def md5chunk (st : Nat × Nat × Nat × Nat) (M : List Nat) : Nat × Nat × Nat × Nat :=
  let r := (List.range 64).foldl (md5round M) st
  (m32 (st.1 + r.1), m32 (st.2.1 + r.2.1), m32 (st.2.2.1 + r.2.2.1), m32 (st.2.2.2 + r.2.2.2))

/-- The MD5 state after digesting a byte string. -/
def md5core (msg : List Nat) : Nat × Nat × Nat × Nat :=
  (chunk16 (toWords (md5pad msg))).foldl md5chunk
    (0x67452301, 0xefcdab89, 0x98badcfe, 0x10325476)

/-- First four digest bytes, `md5.Sum(...)[:4]` — the little-endian bytes of
the first state word. -/
def md5first4 (msg : List Nat) : List Nat :=
  let a := (md5core msg).1
  [a % 256, a / 256 % 256, a / 65536 % 256, a / 16777216 % 256]

/-- UTF-8 encoding of one character (Go string bytes). -/
def utf8Bytes (c : Char) : List Nat :=
  let n := c.toNat
  if n < 128 then [n]
  else if n < 2048 then [192 + n / 64, 128 + n % 64]
  else if n < 65536 then [224 + n / 4096, 128 + n / 64 % 64, 128 + n % 64]
  else [240 + n / 262144, 128 + n / 4096 % 64, 128 + n / 64 % 64, 128 + n % 64]

/-- Bytes of a character list under UTF-8. -/
def strBytes (s : List Char) : List Nat :=
  s.foldr (fun c acc => utf8Bytes c ++ acc) []

/-- Lower-case hexadecimal digit character. -/
def hexDigitChar (n : Nat) : Char :=
  if n < 10 then Char.ofNat (48 + n) else Char.ofNat (87 + n)

/-- `%x` of one byte: two lower-case hex digits. -/
def byteHex (b : Nat) : List Char :=
  [hexDigitChar (b / 16 % 16), hexDigitChar (b % 16)]

/-- `fmt.Sprintf("%x", bytes)`: each byte as two hex digits. -/
def bytesHex (bs : List Nat) : List Char :=
  bs.foldr (fun b acc => byteHex b ++ acc) []

/-- `MaxPromptCategories` from the metrics source: cap on dynamic categories. -/
def MaxPromptCategories : Nat := 50

/-- No newline in the segment (`.` in a Go regexp does not cross newlines). -/
def noNl (s : List Char) : Bool := s.all (fun c => !(c == '\n'))

/-- Match of the Go regexp `write.*code`: an occurrence of `write` followed,
with no intervening newline, by an occurrence of `code`. -/
def seqWriteCode (s : List Char) : Bool :=
  (List.range (s.length + 1)).any (fun i =>
    leadsWith "write".toList (s.drop i) &&
    (List.range (s.length + 1)).any (fun k =>
      noNl ((s.drop (i + 5)).take k) &&
      leadsWith "code".toList (s.drop (i + 5 + k))))

/-- The categorizer's ordered fixed pattern list, applied to the lowercased
prompt (all patterns are case-insensitive literals or alternations of
literals, except `write.*code`). Returns the first matching category. -/
def patternMatch (pl : List Char) : Option (List Char) :=
  if containsSeg "summar".toList pl then some "summarize".toList
  else if containsSeg "translat".toList pl then some "translate".toList
  else if containsSeg "explain".toList pl then some "explain".toList
  else if seqWriteCode pl then some "code_write".toList
  else if containsSeg "debug".toList pl || containsSeg "fix".toList pl then
    some "code_debug".toList
  else if containsSeg "question".toList pl || containsSeg "what".toList pl ||
      containsSeg "how".toList pl || containsSeg "why".toList pl ||
      containsSeg "when".toList pl then some "question".toList
  else if containsSeg "creat".toList pl || containsSeg "generat".toList pl then
    some "creative".toList
  else if containsSeg "analyz".toList pl || containsSeg "analy".toList pl then
    some "analyze".toList
  else if containsSeg "help".toList pl then some "help".toList
  else if containsSeg "list".toList pl || containsSeg "enumerate".toList pl then
    some "list".toList
  else none

/-- The hash-overflow category: `fmt.Sprintf("other_%x", md5.Sum(bytes)[:4])`. -/
def hashCategory (pl : List Char) : List Char :=
  "other_".toList ++ bytesHex (md5first4 (strBytes pl))

/-- Map-key insertion for the dynamic-category set (`categories[w] = true`). -/
def insertCat (cats : List (List Char)) (w : List Char) : List (List Char) :=
  if w ∈ cats then cats else cats ++ [w]

/-- `PromptCategorizer.Categorize`: the returned label together with the
updated dynamic-category set.  The sequential model collapses the
mutex-protected double-checked size test into one size test. -/
def categorize (cats : List (List Char)) (prompt : List Char) :
    List Char × List (List Char) :=
  if prompt.isEmpty then ("empty".toList, cats)
  else
    let pl := lowerize prompt
    match patternMatch pl with
    | some c => (c, cats)
    | none =>
      match fieldsOf prompt with
      | w :: _ =>
        let fw := lowerize w
        if cats.length < MaxPromptCategories then (fw, insertCat cats fw)
        else (hashCategory pl, cats)
      | [] => (hashCategory pl, cats)

/-- Fold `Categorize` over a prompt sequence, keeping the final set. -/
def runCats (cats : List (List Char)) (ps : List (List Char)) : List (List Char) :=
  ps.foldl (fun st p => (categorize st p).2) cats

/-- `Proxy.parseRequest` result triple. -/
structure ParsedReq where
  model : List Char
  prompt : List Char
  endpt : List Char

/-- The endpoint cleanup of `parseRequest`: strip the leading slash, then
one leading `api/` segment when present. -/
def stripEndpoint (path : List Char) : List Char :=
  let endpt0 := trimLead "/".toList path
  if leadsWith "api/".toList endpt0 then trimLead "api/".toList endpt0 else endpt0

/-- The `model` extraction of `parseRequest`: the string `model` field, or
`unknown`. -/
def extractModel (fs : List (List Char × Jval)) : List Char :=
  match objGet fs "model".toList with
  | some (Jval.jstr m) => m
  | _ => "unknown".toList

/-- The `messages` fallback of `parseRequest`'s prompt extraction: the
string `content` of the last entry of a nonempty `messages` array, else
empty. -/
def extractMessages (fs : List (List Char × Jval)) : List Char :=
  match objGet fs "messages".toList with
  | some (Jval.jarr ms) =>
    if ms.isEmpty then []
    else
      match ms.getLast? with
      | some (Jval.jobj mf) =>
        match objGet mf "content".toList with
        | some (Jval.jstr c) => c
        | _ => []
      | _ => []
  | _ => []

/-- The `prompt` extraction of `parseRequest`: a string `prompt` field, or
else the `messages` fallback. -/
def extractPrompt (fs : List (List Char × Jval)) : List Char :=
  match objGet fs "prompt".toList with
  | some (Jval.jstr p) => p
  | _ => extractMessages fs

/-- The model/prompt pair of `parseRequest`: defaults for an empty body or
one that does not unmarshal into a JSON object. -/
def parseBody (body : List Char) : List Char × List Char :=
  if body.isEmpty then ("unknown".toList, [])
  else
    match jsonParse body with
    | some (Jval.jobj fs) => (extractModel fs, extractPrompt fs)
    | _ => ("unknown".toList, [])

/-- `Proxy.parseRequest`: extract model, prompt and endpoint from the URL
path and the buffered JSON body; parse failures never fail the request. -/
def parseRequest (path body : List Char) : ParsedReq :=
  { model := (parseBody body).1, prompt := (parseBody body).2,
    endpt := stripEndpoint path }

/-- Go `int(f)` on a `float64`: truncation toward zero, on exact rationals. -/
def truncQ (q : Qv) : Int := q.num.tdiv q.den

/-- The fields of `ProxyContext` that the observation paths read and write. -/
structure StreamCtx where
  model : List Char
  prompt : List Char
  endpt : List Char
  category : List Char
  clientIp : List Char
  promptTokens : Int
  loadDuration : Qv
  totalDuration : Qv
  preview : List Char
  ttft : Qv

/-- The `AnalyticsRecord` fields filled in by `Proxy.recordMetrics` (the
identity/constant fields that no claim touches are omitted). -/
structure RecordOut where
  model : List Char
  endpoint : List Char
  prompt : List Char
  category : List Char
  preview : List Char
  errorMessage : List Char
  status : List Char
  clientIp : List Char
  durationSeconds : Qv
  tokensPerSecond : Qv
  loadDuration : Qv
  totalDuration : Qv
  ttft : Qv
  tokensGenerated : Int
  promptTokens : Int
  statusCode : Nat

/-- `Proxy.recordMetrics`: builds the one analytics record of the call; the
status tag is `error` when the code is ≥ 400 or the message is nonempty. -/
def recordMetricsRec (ctx : StreamCtx) (duration : Qv) (tokens : Int)
    (tps : Qv) (statusCode : Nat) (errMsg : List Char) : RecordOut :=
  let status :=
    if 400 ≤ statusCode then "error".toList
    else if !errMsg.isEmpty then "error".toList
    else "success".toList
  { model := ctx.model, endpoint := ctx.endpt, prompt := ctx.prompt,
    category := ctx.category, preview := ctx.preview,
    errorMessage := errMsg, status := status, clientIp := ctx.clientIp,
    durationSeconds := duration, tokensPerSecond := tps,
    loadDuration := ctx.loadDuration, totalDuration := ctx.totalDuration,
    ttft := ctx.ttft, tokensGenerated := tokens,
    promptTokens := ctx.promptTokens, statusCode := statusCode }

/-- State of a `streamingResponseBody`, with the observation log and the
bytes handed back to the caller made explicit. -/
structure StreamSt where
  ctx : StreamCtx
  accumulated : List Char
  responseText : List Char
  firstTokenSeen : Bool
  metricsData : Option (List (List Char × Jval))
  metricsRecorded : Bool
  observations : List RecordOut
  outputs : List (List Char)

/-- Fresh wrapper around a response body (all accumulators empty). -/
def initStream (ctx : StreamCtx) : StreamSt :=
  { ctx := ctx, accumulated := [], responseText := [], firstTokenSeen := false,
    metricsData := none, metricsRecorded := false, observations := [], outputs := [] }

/-- One NDJSON line inside `Read`: extract the `response` text (setting
time-to-first-token on the first nonempty one) and retain a `done` line. -/
def processLine (st : StreamSt) (tNow : Qv) (line : List Char) : StreamSt :=
  if line.isEmpty then st
  else
    match jsonParse line with
    | some (Jval.jobj fs) =>
      let st1 :=
        match objGet fs "response".toList with
        | some (Jval.jstr r) =>
          let st2 :=
            if !st.firstTokenSeen && !r.isEmpty then
              { st with firstTokenSeen := true, ctx := { st.ctx with ttft := tNow } }
            else st
          { st2 with responseText := st2.responseText ++ r }
        | _ => st
      match objGet fs "done".toList with
      | some (Jval.jbool true) => { st1 with metricsData := some fs }
      | _ => st1
    | _ => st

/-- The per-chunk work of `Read` when `n > 0`: accumulate (up to the 1 MiB
cap) and parse each newline-separated segment. -/
def processChunk (st : StreamSt) (tNow : Qv) (chunk : List Char) : StreamSt :=
  let st1 :=
    if st.accumulated.length < 1048576 then
      { st with accumulated := st.accumulated ++ chunk }
    else st
  (splitNl chunk).foldl (fun s l => processLine s tNow l) st1

/-- The `ProxyContext` updates made by `recordStreamMetrics` from the
retained terminal line, plus the response preview. -/
def streamFinalCtx (st : StreamSt) : StreamCtx :=
  let c0 := st.ctx
  let c :=
    match st.metricsData with
    | some fs =>
      let c1 :=
        match objGet fs "prompt_eval_count".toList with
        | some (Jval.jnum q) => { c0 with promptTokens := truncQ q }
        | _ => c0
      let c2 :=
        match objGet fs "load_duration".toList with
        | some (Jval.jnum q) => { c1 with loadDuration := Qv.div q (Qv.ofNat 1000000000) }
        | _ => c1
      match objGet fs "total_duration".toList with
      | some (Jval.jnum q) => { c2 with totalDuration := Qv.div q (Qv.ofNat 1000000000) }
      | _ => c2
    | none => c0
  { c with preview := truncate st.responseText 200 }

/-- Token count and tokens/second extracted by `recordStreamMetrics` from
the retained terminal line. -/
def streamTokens (st : StreamSt) : Int × Qv :=
  match st.metricsData with
  | some fs =>
    match objGet fs "eval_count".toList with
    | some (Jval.jnum ec) =>
      let tps :=
        match objGet fs "eval_duration".toList with
        | some (Jval.jnum ed) =>
          if Qv.ltb (Qv.ofNat 0) ed then Qv.div ec (Qv.div ed (Qv.ofNat 1000000000))
          else Qv.ofNat 0
        | _ => Qv.ofNat 0
      (truncQ ec, tps)
    | _ => (0, Qv.ofNat 0)
  | none => (0, Qv.ofNat 0)

/-- The record `recordStreamMetrics` hands to `recordMetrics`: hard-coded
status code 200 and empty error message. -/
def mkStreamRecord (st : StreamSt) (duration : Qv) : RecordOut :=
  recordMetricsRec (streamFinalCtx st) duration (streamTokens st).1
    (streamTokens st).2 200 []

/-- `recordStreamMetrics`: a no-op when already recorded, else set the flag
and append the single observation. -/
def finalizeStream (st : StreamSt) (duration : Qv) : StreamSt :=
  if st.metricsRecorded then st
  else
    { st with
      metricsRecorded := true
      ctx := streamFinalCtx st
      observations := st.observations ++ [mkStreamRecord st duration] }

/-- External events on a wrapped streaming body: a `Read` call returning a
chunk (and possibly end-of-stream), or a `Close` call.  `tNow` is the
elapsed time observed for time-to-first-token, `duration` the elapsed
duration were finalization to run now. -/
inductive StreamEv where
  | read (chunk : List Char) (eof : Bool) (tNow duration : Qv)
  | close (duration : Qv)

/-- The pass-through part of `Read`: process the chunk when nonempty
(`n > 0`) and hand exactly the received bytes to the caller (`outputs`). -/
def readPass (st : StreamSt) (tNow : Qv) (chunk : List Char) : StreamSt :=
  let st1 := if chunk.isEmpty then st else processChunk st tNow chunk
  { st1 with outputs := st1.outputs ++ [chunk] }

/-- One `Read`/`Close` call on the wrapped body.  A `Read` passes the chunk
through and finalizes on end-of-stream; a `Close` finalizes when the metrics
were not yet recorded and closes the underlying body. -/
def streamStep (st : StreamSt) : StreamEv → StreamSt
  | StreamEv.read chunk eof tNow duration =>
    if eof then finalizeStream (readPass st tNow chunk) duration
    else readPass st tNow chunk
  | StreamEv.close duration =>
    if st.metricsRecorded then st else finalizeStream st duration

/-- A whole sequence of `Read`/`Close` calls. -/
def runStream (st : StreamSt) (evs : List StreamEv) : StreamSt :=
  evs.foldl streamStep st

/-- Events that trigger finalization: a `Read` that reached end-of-stream,
or any `Close`. -/
def isFinalTrigger : StreamEv → Bool
  | StreamEv.read _ eof _ _ => eof
  | StreamEv.close _ => true

/-- The gateway status the proxy's `errorHandler` answers with
(`http.StatusBadGateway`). -/
def proxyErrorStatus : Nat := 502

/-- `Proxy.errorHandler`: on a transport failure, record one terminal
observation with internal status 500 and the transport error text (when a
proxy context is attached), then answer 502 to the client. -/
def errorHandlerModel (ctx : Option StreamCtx) (duration : Qv) (errMsg : List Char) :
    Nat × List RecordOut :=
  match ctx with
  | some c => (proxyErrorStatus, [recordMetricsRec c duration 0 (Qv.ofNat 0) 500 errMsg])
  | none => (proxyErrorStatus, [])

/-- Capacity of the analytics write queue (`make(chan AnalyticsRecord, 1000)`). -/
def analyticsQueueCap : Nat := 1000

/-- `AnalyticsWriter.Record`: non-blocking enqueue — append when a slot is
free, else drop the record (the `Bool` is the logged drop). -/
def recordEnqueue (q : List RecordOut) (r : RecordOut) : List RecordOut × Bool :=
  if q.length < analyticsQueueCap then (q ++ [r], false) else (q, true)

/-- Capacity of the admission semaphore (`make(chan struct, 50)`). -/
def maxConcurrentCap : Nat := 50

/-- Semaphore events issued by handlers: slot acquisition and release. -/
inductive SemEv where
  | acquire
  | release

/-- Reachability of a slot count through a sequence of semaphore events
starting from a given count: an acquire only fires below capacity (the
buffered-channel send blocks otherwise), a release only after an acquire
(the handler's deferred receive). -/
inductive SemReach : Nat → List SemEv → Nat → Prop where
  | nil : ∀ {n}, SemReach n [] n
  | acq : ∀ {n m evs}, n < maxConcurrentCap → SemReach (n + 1) evs m →
      SemReach n (SemEv.acquire :: evs) m
  | rel : ∀ {n m evs}, SemReach n evs m → SemReach (n + 1) (SemEv.release :: evs) m

/-- How a call of `handleProxy` exits with respect to admission. -/
inductive HandlerExit where
  | earlyDisconnect
  | cancelledWaiting
  | forwarded

/-- Externally visible effects of one `handleProxy` call up to and including
admission. -/
structure HandlerEffects where
  exit : HandlerExit
  responseStatus : Option Nat
  backendCalls : Nat
  observations : Nat
  slotAcquires : Nat
  slotReleases : Nat

/-- `Proxy.handleProxy` up to admission: an already-cancelled request
returns at once; a request whose cancellation fires while it waits for a
slot is answered 408 with no backend call and no observation; an admitted
request forwards to the backend and releases its slot exactly once via the
deferred receive (`slotFrees` is the scheduler's choice of which `select`
branch fires). -/
def handleProxySummary (ctxDoneAtEntry : Bool) (slotFrees : Bool) : HandlerEffects :=
  if ctxDoneAtEntry then
    { exit := HandlerExit.earlyDisconnect, responseStatus := none,
      backendCalls := 0, observations := 0, slotAcquires := 0, slotReleases := 0 }
  else if !slotFrees then
    { exit := HandlerExit.cancelledWaiting, responseStatus := some 408,
      backendCalls := 0, observations := 0, slotAcquires := 0, slotReleases := 0 }
  else
    { exit := HandlerExit.forwarded, responseStatus := none,
      backendCalls := 1, observations := 1, slotAcquires := 1, slotReleases := 1 }

/-- A stored analytics row, with the fields the retention sweep and
`Search` consult (timestamps as Unix seconds). -/
structure SRec where
  ts : Int
  model : List Char
  prompt : List Char
deriving DecidableEq

/-- Seven days in seconds: the hard-coded retention window (the documented
default) of `cleanupLoop`. -/
def retentionSeconds : Int := 604800

/-- The sweep's cutoff: `time.Now().AddDate(0, 0, -7)`. -/
def retentionCutoff (now : Int) : Int := now - retentionSeconds

/-- `DELETE FROM interactions WHERE timestamp < cutoff`: keep exactly the
rows at or after the cutoff, unchanged. -/
def sweepStore (now : Int) (store : List SRec) : List SRec :=
  store.filter (fun r => !(decide (r.ts < retentionCutoff now)))

/-- One tick of `cleanupLoop`: a failed delete leaves the store unchanged
(logged, `continue`), a successful one sweeps. -/
def cleanupTick (deleteOk : Bool) (now : Int) (store : List SRec) : List SRec :=
  if deleteOk then sweepStore now store else store

/-- The cleanup loop across ticks — total, so a failure never ends it. -/
def runTicks (ticks : List (Bool × Int)) (store : List SRec) : List SRec :=
  ticks.foldl (fun st t => cleanupTick t.1 t.2 st) store

/-- The `Search` filters built from the query parameters. -/
structure SFilters where
  model : Option (List Char)
  searchSub : Option (List Char)
  startT : Option Int
  endT : Option Int
  limit : Nat

/-- Row admission of the `Search` WHERE clause: exact model match, SQLite
`LIKE` with `%…%` (ASCII case-insensitive substring for wildcard-free
search text), and the timestamp range. -/
def matchesF (f : SFilters) (r : SRec) : Bool :=
  (match f.model with
   | some m => r.model == m
   | none => true) &&
  (match f.searchSub with
   | some s => containsSeg (lowerize s) (lowerize r.prompt)
   | none => true) &&
  (match f.startT with
   | some t => decide (t ≤ r.ts)
   | none => true) &&
  (match f.endT with
   | some t => decide (r.ts ≤ t)
   | none => true)

/-- Insertion into a list kept newest-first. -/
def insertByTsDesc (r : SRec) : List SRec → List SRec
  | [] => [r]
  | x :: xs => if x.ts ≤ r.ts then r :: x :: xs else x :: insertByTsDesc r xs

/-- `ORDER BY timestamp DESC`. -/
def sortByTsDesc (l : List SRec) : List SRec := l.foldr insertByTsDesc []

/-- `AnalyticsWriter.Search`: filter, order newest-first, apply the limit. -/
def searchStore (store : List SRec) (f : SFilters) : List SRec :=
  (sortByTsDesc (store.filter (matchesF f))).take f.limit

/-- One row of the `interactions` table as consulted by the enhanced stats
queries, restricted to the requested time window. -/
structure StatsRow where
  clientIp : List Char
  model : List Char
  durationSeconds : Qv
  tokensGenerated : Qv
  promptTokens : Qv
  statusCode : Int
  ts : Int

/-- SQL `AVG`: `NULL` (`none`) over an empty set. -/
def sqlAvg (xs : List Qv) : Option Qv :=
  if xs.isEmpty then none else some (Qv.div (Qv.sum xs) (Qv.ofNat xs.length))

/-- Distinct values, first occurrence kept. -/
def dedupL (l : List (List Char)) : List (List Char) :=
  l.foldl (fun acc x => if x ∈ acc then acc else acc ++ [x]) []

/-- The row produced by the handler's basic-stats SQL aggregate: counts are
never `NULL`, the five float aggregates are `NULL` over an empty window
(`AVG` of nothing; `SUM(...)*100.0/COUNT(*)` is `NULL/0`, hence `NULL`). -/
structure BasicStatsRow where
  totalRequests : Nat
  uniqueIps : Nat
  uniqueModels : Nat
  avgResponseMs : Option Qv
  avgInputTokens : Option Qv
  avgOutputTokens : Option Qv
  avgTokensPerSec : Option Qv
  successRate : Option Qv

/-- The basic-stats query of `handleAnalyticsStatsEnhanced` over the rows of
the requested window. -/
def basicStatsQuery (rows : List StatsRow) : BasicStatsRow :=
  { totalRequests := rows.length
    uniqueIps := (dedupL (rows.map (fun r => r.clientIp))).length
    uniqueModels := (dedupL (rows.map (fun r => r.model))).length
    avgResponseMs := sqlAvg (rows.map (fun r => Qv.mul r.durationSeconds (Qv.ofNat 1000)))
    avgInputTokens := sqlAvg (rows.map (fun r => r.promptTokens))
    avgOutputTokens := sqlAvg (rows.map (fun r => r.tokensGenerated))
    avgTokensPerSec := sqlAvg (rows.map (fun r =>
      if Qv.ltb (Qv.ofNat 0) r.durationSeconds && Qv.ltb (Qv.ofNat 0) r.tokensGenerated then
        Qv.div r.tokensGenerated r.durationSeconds
      else Qv.ofNat 0))
    successRate :=
      if rows.isEmpty then none
      else some (Qv.div
        (Qv.mul (Qv.ofNat (rows.filter (fun r => r.statusCode < 400)).length) (Qv.ofNat 100))
        (Qv.ofNat rows.length)) }

/-- `strconv.Atoi` on the `hours` query parameter with the handler's
`parsed > 0` guard; absent, unparsable or non-positive values default to 24. -/
def parseHoursParam (p : Option (List Char)) : Nat :=
  match p with
  | none => 24
  | some ds =>
    if !ds.isEmpty && ds.all isDigitCh && 0 < natOfDigits ds then natOfDigits ds
    else 24

/-- The JSON payload of a successful enhanced-stats response (trend buckets
omitted; the top lists carry label and request count). -/
structure EnhancedStats where
  totalRequests : Nat
  uniqueIps : Nat
  uniqueModels : Nat
  avgResponseMs : Qv
  avgInputTokens : Qv
  avgOutputTokens : Qv
  avgTokensPerSec : Qv
  successRate : Qv
  errorRate : Qv
  requestsPerMinute : Qv
  topIps : List (List Char × Nat)
  topModels : List (List Char × Nat)

/-- Outcome of an analytics HTTP handler. -/
inductive HttpOut where
  | ok (stats : EnhancedStats)
  | httpError (status : Nat) (msg : List Char)

/-- Insertion into a count-descending list. -/
def insertByCountDesc (p : List Char × Nat) : List (List Char × Nat) → List (List Char × Nat)
  | [] => [p]
  | x :: xs => if x.2 ≤ p.2 then p :: x :: xs else x :: insertByCountDesc p xs

/-- `GROUP BY key ORDER BY COUNT(*) DESC LIMIT 10` over a key column. -/
def topByCount (keys : List (List Char)) : List (List Char × Nat) :=
  (((dedupL keys).map (fun k => (k, (keys.filter (fun x => x == k)).length))).foldr
    insertByCountDesc []).take 10

/-- `Proxy.handleAnalyticsStatsEnhanced` (the SQL-aggregation version) over
the window's rows: scanning a `NULL` float aggregate into a Go `float64`
fails, which the handler answers with HTTP 500; otherwise it builds the
stats payload and the top lists. -/
def handleStatsEnhanced (hoursParam : Option (List Char)) (rows : List StatsRow) : HttpOut :=
  let hours := parseHoursParam hoursParam
  let b := basicStatsQuery rows
  match b.avgResponseMs, b.avgInputTokens, b.avgOutputTokens, b.avgTokensPerSec, b.successRate with
  | some a1, some a2, some a3, some a4, some a5 =>
    HttpOut.ok
      { totalRequests := b.totalRequests
        uniqueIps := b.uniqueIps
        uniqueModels := b.uniqueModels
        avgResponseMs := a1
        avgInputTokens := a2
        avgOutputTokens := a3
        avgTokensPerSec := a4
        successRate := a5
        errorRate := Qv.sub (Qv.ofNat 100) a5
        requestsPerMinute :=
          if 0 < hours then Qv.div (Qv.ofNat b.totalRequests) (Qv.ofNat (hours * 60))
          else Qv.ofNat 0
        topIps := topByCount (rows.map (fun r => r.clientIp))
        topModels := topByCount (rows.map (fun r => r.model)) }
  | _, _, _, _, _ =>
    HttpOut.httpError 500 "sql: Scan error: converting NULL to float64 is unsupported".toList

section Theorems

/-- Folding a step that preserves a predicate preserves it. -/
theorem foldl_preserve {α β : Type} (f : α → β → α) (P : α → Prop)
    (h : ∀ a b, P a → P (f a b)) : ∀ (l : List β) (a : α), P a → P (l.foldl f a)
  | [], _, ha => ha
  | b :: l, a, ha => foldl_preserve f P h l (f a b) (h a b ha)

/-- `processLine` never touches the observation log or the idempotency flag. -/
theorem processLine_obs (st : StreamSt) (t : Qv) (l : List Char) :
    (processLine st t l).observations = st.observations ∧
    (processLine st t l).metricsRecorded = st.metricsRecorded := by
  unfold processLine
  split
  · exact ⟨rfl, rfl⟩
  · split
    · dsimp only
      repeat' split
      all_goals exact ⟨rfl, rfl⟩
    · exact ⟨rfl, rfl⟩

/-- `processChunk` never touches the observation log or the idempotency flag. -/
theorem processChunk_obs (st : StreamSt) (t : Qv) (chunk : List Char) :
    (processChunk st t chunk).observations = st.observations ∧
    (processChunk st t chunk).metricsRecorded = st.metricsRecorded := by
  unfold processChunk
  have base :
      (if st.accumulated.length < 1048576 then
        { st with accumulated := st.accumulated ++ chunk } else st).observations
        = st.observations ∧
      (if st.accumulated.length < 1048576 then
        { st with accumulated := st.accumulated ++ chunk } else st).metricsRecorded
        = st.metricsRecorded := by
    split <;> exact ⟨rfl, rfl⟩
  refine foldl_preserve _
    (fun s => s.observations = st.observations ∧ s.metricsRecorded = st.metricsRecorded)
    (fun (s : StreamSt) (l : List Char) hs => ?_) (splitNl chunk) _ base
  have h := processLine_obs s t l
  exact ⟨h.1.trans hs.1, h.2.trans hs.2⟩

/-- The single-observation invariant of a wrapped streaming body. -/
def obsInv (st : StreamSt) : Prop :=
  st.observations.length = (if st.metricsRecorded then 1 else 0)

/-- `readPass` never touches the observation log or the idempotency flag. -/
theorem readPass_obs (st : StreamSt) (t : Qv) (chunk : List Char) :
    (readPass st t chunk).observations = st.observations ∧
    (readPass st t chunk).metricsRecorded = st.metricsRecorded := by
  unfold readPass
  dsimp only
  split
  · exact ⟨rfl, rfl⟩
  · exact ⟨(processChunk_obs st t chunk).1, (processChunk_obs st t chunk).2⟩

/-- `finalizeStream` always leaves the flag set. -/
theorem finalizeStream_flag (st : StreamSt) (d : Qv) :
    (finalizeStream st d).metricsRecorded = true := by
  unfold finalizeStream
  split
  · next h => exact h
  · rfl

/-- `finalizeStream` keeps the single-observation invariant. -/
theorem finalizeStream_inv (st : StreamSt) (d : Qv) (h : obsInv st) :
    obsInv (finalizeStream st d) := by
  unfold finalizeStream obsInv at *
  split
  · next hc => rw [hc] at h; simpa using h
  · next hrec =>
    simp only [Bool.not_eq_true] at hrec
    rw [hrec] at h
    simp at h
    simp [h]

/-- One `Read`/`Close` call keeps the single-observation invariant. -/
theorem streamStep_inv (st : StreamSt) (ev : StreamEv) (h : obsInv st) :
    obsInv (streamStep st ev) := by
  have hpass : ∀ t chunk, obsInv (readPass st t chunk) := by
    intro t chunk
    unfold obsInv at h ⊢
    rw [(readPass_obs st t chunk).1, (readPass_obs st t chunk).2]
    exact h
  cases ev with
  | read chunk eof tNow duration =>
    cases eof
    · simpa only [streamStep, Bool.false_eq_true, if_false] using hpass tNow chunk
    · simpa only [streamStep, if_true] using
        finalizeStream_inv (readPass st tNow chunk) duration (hpass tNow chunk)
  | close duration =>
    by_cases hr : st.metricsRecorded = true
    · simpa only [streamStep, hr, if_true] using h
    · simp only [streamStep, hr, if_false]
      exact finalizeStream_inv st duration h

/-- The idempotency flag is monotone and set by any finalization trigger. -/
theorem streamStep_recorded (st : StreamSt) (ev : StreamEv) :
    (st.metricsRecorded = true → (streamStep st ev).metricsRecorded = true) ∧
    (isFinalTrigger ev = true → (streamStep st ev).metricsRecorded = true) := by
  cases ev with
  | read chunk eof tNow duration =>
    cases eof
    · constructor
      · intro h
        simp only [streamStep, Bool.false_eq_true, if_false]
        exact ((readPass_obs st tNow chunk).2).trans h
      · intro h
        exact absurd h (by simp [isFinalTrigger])
    · constructor
      · intro _
        simp only [streamStep, if_true]
        exact finalizeStream_flag _ _
      · intro _
        simp only [streamStep, if_true]
        exact finalizeStream_flag _ _
  | close duration =>
    constructor
    · intro h
      simp only [streamStep, h, if_true]
    · intro _
      by_cases hr : st.metricsRecorded = true
      · simp only [streamStep, hr, if_true]
      · simp only [streamStep, hr, if_false]
        exact finalizeStream_flag _ _

/-- The single-observation invariant holds across any call sequence. -/
theorem runStream_inv (evs : List StreamEv) (st : StreamSt) (h : obsInv st) :
    obsInv (runStream st evs) := by
  unfold runStream
  exact foldl_preserve streamStep obsInv (fun a b ha => streamStep_inv a b ha) evs st h

/-- Once recorded, a stream stays recorded across any further calls. -/
theorem runStream_recorded_mono (evs : List StreamEv) (st : StreamSt)
    (h : st.metricsRecorded = true) : (runStream st evs).metricsRecorded = true := by
  unfold runStream
  exact foldl_preserve streamStep (fun s => s.metricsRecorded = true)
    (fun a b ha => (streamStep_recorded a b).1 ha) evs st h

/-- Any trace containing a finalization trigger ends recorded. -/
theorem runStream_trigger (evs : List StreamEv) (st : StreamSt)
    (h : ∃ ev ∈ evs, isFinalTrigger ev = true) :
    (runStream st evs).metricsRecorded = true := by
  induction evs generalizing st with
  | nil =>
    rcases h with ⟨ev, hm, _⟩
    cases hm
  | cons e rest ih =>
    rcases h with ⟨ev, hm, ht⟩
    rcases List.mem_cons.mp hm with heq | hm2
    · subst heq
      exact runStream_recorded_mono rest (streamStep st ev) ((streamStep_recorded st ev).2 ht)
    · exact ih (streamStep st e) ⟨ev, hm2, ht⟩

/-- C1: for every wrapped streaming response body, the finalization routine
records at most one metrics/analytics observation regardless of the sequence
of Read and Close calls; any trace that reaches end-of-stream or closes the
body records exactly one observation, and in particular the EOF-then-Close
double finalization records exactly one. -/
theorem c1_stream_finalize_once (ctx : StreamCtx) (evs : List StreamEv) :
    (runStream (initStream ctx) evs).observations.length ≤ 1 ∧
    ((∃ ev ∈ evs, isFinalTrigger ev = true) →
      (runStream (initStream ctx) evs).observations.length = 1) ∧
    (∀ chunk tNow d1 d2,
      (runStream (initStream ctx)
        [StreamEv.read chunk true tNow d1, StreamEv.close d2]).observations.length = 1) := by
  have hinit : obsInv (initStream ctx) := by simp [obsInv, initStream]
  have hinv := runStream_inv evs (initStream ctx) hinit
  refine ⟨?_, ?_, ?_⟩
  · unfold obsInv at hinv
    rw [hinv]
    split <;> omega
  · intro h
    unfold obsInv at hinv
    rw [hinv, if_pos (runStream_trigger evs _ h)]
  · intro chunk tNow d1 d2
    have h2 := runStream_inv [StreamEv.read chunk true tNow d1, StreamEv.close d2]
      (initStream ctx) hinit
    unfold obsInv at h2
    rw [h2, if_pos (runStream_trigger _ _ ⟨StreamEv.read chunk true tNow d1, by simp, rfl⟩)]

/-- A concrete request context used by the witnesses. -/
def ctx0 : StreamCtx :=
  { model := [], prompt := [], endpt := [], category := [], clientIp := [],
    promptTokens := 0, loadDuration := Qv.ofNat 0, totalDuration := Qv.ofNat 0,
    preview := [], ttft := Qv.ofNat 0 }

/-- Witness for C1 at a concrete trace: end-of-stream followed by an
explicit Close yields exactly one observation. -/
theorem c1_stream_finalize_once_witness :
    (runStream (initStream ctx0)
      [StreamEv.read "x".toList true (Qv.ofNat 0) (Qv.ofNat 0), StreamEv.close (Qv.ofNat 0)]).observations.length = 1 :=
  (c1_stream_finalize_once ctx0 [StreamEv.read "x".toList true (Qv.ofNat 0) (Qv.ofNat 0), StreamEv.close (Qv.ofNat 0)]).2.1
    ⟨StreamEv.read "x".toList true (Qv.ofNat 0) (Qv.ofNat 0), by simp, rfl⟩

/-- The C2 scenario's POST body. -/
def c2Body : List Char :=
  "\x7b\"model\":\"phi4\",\"prompt\":\"Summarize this article\"\x7d".toList

/-- The C2 scenario's request path. -/
def c2Path : List Char := "/api/generate".toList

/-- First NDJSON line streamed by the backend in the C2 scenario. -/
def c2Line1 : List Char := "\x7b\"response\":\"Hi\",\"done\":false\x7d\n".toList

/-- Terminal NDJSON line streamed by the backend in the C2 scenario. -/
def c2Line2 : List Char :=
  "\x7b\"response\":\"\",\"done\":true,\"eval_count\":10,\"eval_duration\":1000000000,\"prompt_eval_count\":5\x7d\n".toList

/-- The request context `handleProxy` builds for the C2 scenario: parsed
model/prompt/endpoint and the categorizer's label (the shared dynamic
category state and the client address are arbitrary). -/
def c2Ctx (cats : List (List Char)) (ip : List Char) : StreamCtx :=
  { model := (parseRequest c2Path c2Body).model
    prompt := (parseRequest c2Path c2Body).prompt
    endpt := (parseRequest c2Path c2Body).endpt
    category := (categorize cats (parseRequest c2Path c2Body).prompt).1
    clientIp := ip
    promptTokens := 0, loadDuration := Qv.ofNat 0, totalDuration := Qv.ofNat 0,
    preview := [], ttft := Qv.ofNat 0 }

/-- The C2 scenario's wrapped body after both backend lines, each delivered
whole by one `Read`, the second returning end-of-stream. -/
def c2Run (cats : List (List Char)) (ip : List Char) (t1 t2 d1 d2 : Qv) : StreamSt :=
  runStream (initStream (c2Ctx cats ip))
    [StreamEv.read c2Line1 false t1 d1, StreamEv.read c2Line2 true t2 d2]

/-- C2: for the POST to /api/generate with the phi4 summarize body, with the
backend streaming the two NDJSON lines, the caller receives exactly the
backend's bytes, and the single end-of-stream analytics record has
model=phi4, category=summarize, output_tokens=10, input_tokens=5 and
tokens_per_second=10 — for any categorizer state, client address and
request timing. -/
theorem c2_generate_stream_scenario (cats : List (List Char)) (ip : List Char)
    (t1 t2 d1 d2 : Qv) :
    (c2Run cats ip t1 t2 d1 d2).outputs = [c2Line1, c2Line2] ∧
    (c2Run cats ip t1 t2 d1 d2).observations.map
      (fun r => (r.model, r.category, r.tokensGenerated, r.promptTokens))
      = [("phi4".toList, "summarize".toList, 10, 5)] ∧
    (c2Run cats ip t1 t2 d1 d2).observations.map
      (fun r => Qv.eqb r.tokensPerSecond (Qv.ofNat 10)) = [true] :=
  ⟨rfl, rfl, rfl⟩

/-- C10: every record built by the streaming finalization path carries
status code 200, an empty error message, and hence status tag `success`,
whatever the stream saw (terminal line, partial stream, or nothing); and
when the flag is unset, finalization appends exactly that record. -/
theorem c10_stream_record_always_success (st : StreamSt) (d : Qv) :
    (mkStreamRecord st d).statusCode = 200 ∧
    (mkStreamRecord st d).errorMessage = [] ∧
    (mkStreamRecord st d).status = "success".toList ∧
    (st.metricsRecorded = false →
      (finalizeStream st d).observations = st.observations ++ [mkStreamRecord st d]) := by
  refine ⟨rfl, rfl, rfl, ?_⟩
  intro h
  simp [finalizeStream, h]

/-- Witness for C10 on a fresh wrapped body. -/
theorem c10_stream_record_always_success_witness :
    (finalizeStream (initStream ctx0) (Qv.ofNat 0)).observations
      = (initStream ctx0).observations ++ [mkStreamRecord (initStream ctx0) (Qv.ofNat 0)] :=
  (c10_stream_record_always_success (initStream ctx0) (Qv.ofNat 0)).2.2.2 rfl

/-- C5: a transport-level failure with an attached request context makes the
proxy answer the gateway-error status 502 and record exactly one terminal
observation, with internal status 500 (a 5xx code), status tag `error`, and
the nonempty transport error text. -/
theorem c5_transport_error_observation (c : StreamCtx) (d : Qv) (errMsg : List Char)
    (hmsg : errMsg ≠ []) :
    (errorHandlerModel (some c) d errMsg).1 = proxyErrorStatus ∧
    proxyErrorStatus = 502 ∧
    (errorHandlerModel (some c) d errMsg).2.length = 1 ∧
    ∀ r ∈ (errorHandlerModel (some c) d errMsg).2,
      500 ≤ r.statusCode ∧ r.statusCode < 600 ∧
      r.status = "error".toList ∧ r.errorMessage = errMsg ∧ r.errorMessage ≠ [] := by
  refine ⟨rfl, rfl, rfl, ?_⟩
  intro r hr
  have hr2 : r = recordMetricsRec c d 0 (Qv.ofNat 0) 500 errMsg :=
    List.mem_singleton.mp hr
  subst hr2
  exact ⟨by show (500 : Nat) ≤ 500; norm_num, by show (500 : Nat) < 600; norm_num,
    rfl, rfl, hmsg⟩

/-- Witness for C5 at a concrete transport error. -/
theorem c5_transport_error_observation_witness :
    (errorHandlerModel (some ctx0) (Qv.ofNat 0) "connection refused".toList).1
        = proxyErrorStatus ∧
    proxyErrorStatus = 502 ∧
    (errorHandlerModel (some ctx0) (Qv.ofNat 0) "connection refused".toList).2.length = 1 ∧
    ∀ r ∈ (errorHandlerModel (some ctx0) (Qv.ofNat 0) "connection refused".toList).2,
      500 ≤ r.statusCode ∧ r.statusCode < 600 ∧
      r.status = "error".toList ∧ r.errorMessage = "connection refused".toList ∧
      r.errorMessage ≠ [] :=
  c5_transport_error_observation ctx0 (Qv.ofNat 0) "connection refused".toList (by decide)

/-- A concrete analytics record used by witnesses. -/
def rec0 : RecordOut := recordMetricsRec ctx0 (Qv.ofNat 0) 0 (Qv.ofNat 0) 200 []

/-- C6: `Record` never blocks — it is a total function of the queue state:
with a free slot (capacity 1000) it enqueues the record; when full it drops
the record, leaves the queue unchanged, and signals only the logged drop
(no error reaches the request path); the queue never exceeds capacity. -/
theorem c6_record_nonblocking (q : List RecordOut) (r : RecordOut) :
    analyticsQueueCap = 1000 ∧
    (q.length < analyticsQueueCap → recordEnqueue q r = (q ++ [r], false)) ∧
    (analyticsQueueCap ≤ q.length → recordEnqueue q r = (q, true)) ∧
    (q.length ≤ analyticsQueueCap →
      (recordEnqueue q r).1.length ≤ analyticsQueueCap) := by
  refine ⟨rfl, ?_, ?_, ?_⟩
  · intro h
    simp [recordEnqueue, h]
  · intro h
    simp [recordEnqueue, Nat.not_lt.mpr h]
  · intro h
    by_cases hlt : q.length < analyticsQueueCap
    · simp only [recordEnqueue, if_pos hlt, List.length_append, List.length_singleton]
      omega
    · simpa only [recordEnqueue, if_neg hlt] using h

/-- Witness for C6 on the empty queue. -/
theorem c6_record_nonblocking_witness :
    recordEnqueue [] rec0 = ([] ++ [rec0], false) ∧
    (recordEnqueue [] rec0).1.length ≤ analyticsQueueCap :=
  ⟨(c6_record_nonblocking [] rec0).2.1 (by decide),
   (c6_record_nonblocking [] rec0).2.2.2 (by decide)⟩

/-- Any slot count reachable from a count within capacity stays within it. -/
theorem semReach_bound {k : Nat} {evs : List SemEv} {n : Nat}
    (h : SemReach k evs n) (hk : k ≤ maxConcurrentCap) : n ≤ maxConcurrentCap := by
  induction h with
  | nil => exact hk
  | acq hlt _ ih => exact ih hlt
  | rel _ ih => exact ih (Nat.le_of_succ_le hk)

/-- C3: admission is a bounded semaphore of capacity 50 — no reachable slot
count from an idle proxy exceeds 50; a request whose cancellation fires
while waiting is answered 408 with no backend call and no observation; and
on every exit path the handler releases exactly as many slots as it
acquired (at most one). -/
theorem c3_admission_bounded (evs : List SemEv) (k n : Nat)
    (h : SemReach k evs n) (hk : k ≤ maxConcurrentCap) :
    maxConcurrentCap = 50 ∧
    n ≤ maxConcurrentCap ∧
    handleProxySummary false false =
      { exit := HandlerExit.cancelledWaiting, responseStatus := some 408,
        backendCalls := 0, observations := 0, slotAcquires := 0, slotReleases := 0 } ∧
    (∀ d s, (handleProxySummary d s).slotReleases = (handleProxySummary d s).slotAcquires ∧
      (handleProxySummary d s).slotAcquires ≤ 1) := by
  refine ⟨rfl, semReach_bound h hk, rfl, ?_⟩
  intro d s
  cases d <;> cases s <;> exact ⟨rfl, by decide⟩

/-- Witness for C3 on the empty trace from the idle proxy. -/
theorem c3_admission_bounded_witness :
    maxConcurrentCap = 50 ∧
    0 ≤ maxConcurrentCap ∧
    handleProxySummary false false =
      { exit := HandlerExit.cancelledWaiting, responseStatus := some 408,
        backendCalls := 0, observations := 0, slotAcquires := 0, slotReleases := 0 } ∧
    (∀ d s, (handleProxySummary d s).slotReleases = (handleProxySummary d s).slotAcquires ∧
      (handleProxySummary d s).slotAcquires ≤ 1) :=
  c3_admission_bounded [] 0 0 SemReach.nil (by decide)

/-- Hexadecimal digit characters (lower-case, as `%x` prints). -/
def isHexDigitCh (c : Char) : Bool :=
  (48 ≤ c.toNat && c.toNat ≤ 57) || (97 ≤ c.toNat && c.toNat ≤ 102)

/-- The lowercased first word of a prompt — the dynamic-category key. -/
def firstWordLower (p : List Char) : List Char := lowerize ((fieldsOf p).headI)

/-- Inserting a key keeps the set as a sub-collection. -/
theorem insertCat_subset (cats : List (List Char)) (w : List Char) :
    cats ⊆ insertCat cats w := by
  unfold insertCat
  split
  · exact fun x hx => hx
  · exact fun x hx => List.mem_append_left _ hx

/-- Inserting a key grows the set by at most one. -/
theorem insertCat_length (cats : List (List Char)) (w : List Char) :
    (insertCat cats w).length ≤ cats.length + 1 := by
  unfold insertCat
  split
  · omega
  · simp

/-- Inserting a fresh key grows the set by exactly one. -/
theorem insertCat_length_new (cats : List (List Char)) (w : List Char)
    (h : w ∉ cats) : (insertCat cats w).length = cats.length + 1 := by
  unfold insertCat
  rw [if_neg h]
  simp

/-- Membership after inserting a fresh key. -/
theorem insertCat_mem (cats : List (List Char)) (w x : List Char) :
    x ∈ insertCat cats w → x ∈ cats ∨ x = w := by
  unfold insertCat
  split
  · exact fun hx => Or.inl hx
  · intro hx
    rcases List.mem_append.mp hx with hx | hx
    · exact Or.inl hx
    · exact Or.inr (List.mem_singleton.mp hx)

/-- Below the cap, a nonempty non-pattern prompt with a first word inserts
exactly its lowercased first word (and returns it as the label). -/
theorem categorize_fresh0 (cats : List (List Char)) (p w : List Char)
    (rest : List (List Char))
    (hne : p.isEmpty = false) (hpat : patternMatch (lowerize p) = none)
    (hw : fieldsOf p = w :: rest) (hlt : cats.length < MaxPromptCategories) :
    (categorize cats p).2 = insertCat cats (lowerize w) ∧
    (categorize cats p).1 = lowerize w := by
  unfold categorize
  simp [hne, hpat, hw, hlt]

/-- At or above the cap, a nonempty non-pattern prompt falls into the hash
bucket and leaves the set unchanged. -/
theorem categorize_overflow0 (cats : List (List Char)) (p : List Char)
    (hne : p.isEmpty = false) (hpat : patternMatch (lowerize p) = none)
    (hfull : ¬cats.length < MaxPromptCategories) :
    (categorize cats p).1 = hashCategory (lowerize p) ∧
    (categorize cats p).2 = cats := by
  unfold categorize
  cases hfe : fieldsOf p with
  | nil => simp [hne, hpat, hfe]
  | cons w rws => simp [hne, hpat, hfe, hfull]

/-- What one `Categorize` call does to the dynamic-category set: unchanged,
or (below the cap, for a prompt with a first word) one lowercased first
word inserted. -/
theorem categorize_cases (cats : List (List Char)) (p : List Char) :
    (categorize cats p).2 = cats ∨
    (cats.length < MaxPromptCategories ∧ ∃ w rest, fieldsOf p = w :: rest ∧
      (categorize cats p).2 = insertCat cats (lowerize w) ∧
      (categorize cats p).1 = lowerize w) := by
  by_cases hne : p.isEmpty = true
  · left
    unfold categorize
    simp [hne]
  · have hne2 : p.isEmpty = false := by simpa using hne
    cases hpat : patternMatch (lowerize p) with
    | some c =>
      left
      unfold categorize
      simp [hne2, hpat]
    | none =>
      cases hw : fieldsOf p with
      | nil =>
        left
        unfold categorize
        simp [hne2, hpat, hw]
      | cons w rest =>
        by_cases hlt : cats.length < MaxPromptCategories
        · right
          exact ⟨hlt, w, rest, rfl, (categorize_fresh0 cats p w rest hne2 hpat hw hlt).1,
            (categorize_fresh0 cats p w rest hne2 hpat hw hlt).2⟩
        · left
          exact (categorize_overflow0 cats p hne2 hpat hlt).2

/-- The dynamic-category set never shrinks. -/
theorem categorize_mono (cats : List (List Char)) (p : List Char) :
    cats ⊆ (categorize cats p).2 := by
  rcases categorize_cases cats p with h | ⟨_, w, _, _, h, _⟩
  · rw [h]
    exact fun x hx => hx
  · rw [h]
    exact insertCat_subset cats (lowerize w)

/-- The dynamic-category set never exceeds the cap. -/
theorem categorize_bound (cats : List (List Char)) (p : List Char)
    (h : cats.length ≤ MaxPromptCategories) :
    (categorize cats p).2.length ≤ MaxPromptCategories := by
  rcases categorize_cases cats p with he | ⟨hlt, w, _, _, he, _⟩
  · rw [he]; exact h
  · rw [he]
    calc (insertCat cats (lowerize w)).length ≤ cats.length + 1 :=
          insertCat_length cats (lowerize w)
    _ ≤ MaxPromptCategories := hlt

/-- A hexadecimal digit character comes out of `hexDigitChar` below 16. -/
theorem hexDigitChar_isHex (n : Nat) (h : n < 16) :
    isHexDigitCh (hexDigitChar n) = true := by
  interval_cases n <;> decide

/-- All characters of a `%x` rendering are hex digits. -/
theorem bytesHex_hex (bs : List Nat) :
    ∀ c ∈ bytesHex bs, isHexDigitCh c = true := by
  induction bs with
  | nil => intro c hc; cases hc
  | cons b rest ih =>
    intro c hc
    have hc2 : c ∈ byteHex b ++ bytesHex rest := hc
    rcases List.mem_append.mp hc2 with hc3 | hc3
    · rcases List.mem_cons.mp hc3 with rfl | hc4
      · exact hexDigitChar_isHex _ (Nat.mod_lt _ (by norm_num))
      · rcases List.mem_cons.mp hc4 with rfl | hc5
        · exact hexDigitChar_isHex _ (Nat.mod_lt _ (by norm_num))
        · cases hc5
    · exact ih c hc3

/-- A `%x` rendering has two characters per byte. -/
theorem bytesHex_length (bs : List Nat) : (bytesHex bs).length = 2 * bs.length := by
  induction bs with
  | nil => rfl
  | cons b rest ih =>
    have he : bytesHex (b :: rest) = byteHex b ++ bytesHex rest := rfl
    rw [he, List.length_append, ih]
    simp [byteHex]
    omega

/-- The hash-overflow category is `other_` followed by eight hex digits. -/
theorem hashCategory_form (pl : List Char) :
    ∃ hx, hashCategory pl = "other_".toList ++ hx ∧ hx.length = 8 ∧
      ∀ c ∈ hx, isHexDigitCh c = true := by
  refine ⟨bytesHex (md5first4 (strBytes pl)), rfl, ?_, bytesHex_hex _⟩
  have h4 : (md5first4 (strBytes pl)).length = 4 := rfl
  rw [bytesHex_length, h4]

/-- Unfolding one prompt of `runCats`. -/
theorem runCats_cons (cats : List (List Char)) (p : List Char)
    (rest : List (List Char)) :
    runCats cats (p :: rest) = runCats (categorize cats p).2 rest := rfl

/-- Growth of the dynamic-category set along a sequence of nonempty,
non-pattern prompts with pairwise-distinct lowercased first words, all
fresh for the starting set: the set reaches exactly
`min (start + N) MaxPromptCategories` entries. -/
theorem runCats_growth (ps : List (List Char)) (cats : List (List Char))
    (hgood : ∀ p ∈ ps, p.isEmpty = false ∧ patternMatch (lowerize p) = none ∧
      fieldsOf p ≠ [])
    (hdist : (ps.map firstWordLower).Pairwise (fun a b => a ≠ b))
    (hfresh : ∀ p ∈ ps, firstWordLower p ∉ cats)
    (hlen : cats.length ≤ MaxPromptCategories) :
    (runCats cats ps).length = min (cats.length + ps.length) MaxPromptCategories := by
  induction ps generalizing cats with
  | nil =>
    simp only [runCats, List.foldl_nil, List.length_nil, Nat.add_zero]
    exact (min_eq_left hlen).symm
  | cons p rest ih =>
    obtain ⟨hne, hpat, hfw⟩ := hgood p (List.mem_cons_self p rest)
    obtain ⟨w, rws, hweq⟩ : ∃ w rws, fieldsOf p = w :: rws := by
      cases hfe : fieldsOf p with
      | nil => exact absurd hfe hfw
      | cons a b => exact ⟨a, b, rfl⟩
    have hfwl : firstWordLower p = lowerize w := by
      unfold firstWordLower
      rw [hweq]
      rfl
    have hgood2 : ∀ q ∈ rest, q.isEmpty = false ∧ patternMatch (lowerize q) = none ∧
        fieldsOf q ≠ [] := fun q hq => hgood q (List.mem_cons_of_mem p hq)
    have hdist2 : (rest.map firstWordLower).Pairwise (fun a b => a ≠ b) :=
      List.Pairwise.of_cons hdist
    rw [runCats_cons]
    by_cases hlt : cats.length < MaxPromptCategories
    · have hstep := categorize_fresh0 cats p w rws hne hpat hweq hlt
      have hnm : lowerize w ∉ cats := by
        have hf := hfresh p (List.mem_cons_self p rest)
        rwa [hfwl] at hf
      have hins : (insertCat cats (lowerize w)).length = cats.length + 1 :=
        insertCat_length_new cats (lowerize w) hnm
      have hfresh2 : ∀ q ∈ rest, firstWordLower q ∉ insertCat cats (lowerize w) := by
        intro q hq hmem
        rcases insertCat_mem cats (lowerize w) _ hmem with hc | hc
        · exact hfresh q (List.mem_cons_of_mem p hq) hc
        · have hpair := (List.pairwise_cons.mp hdist).1
          have hne2 := hpair (firstWordLower q) (List.mem_map_of_mem firstWordLower hq)
          exact hne2 (hfwl.trans hc.symm)
      rw [hstep.1, ih (insertCat cats (lowerize w)) hgood2 hdist2 hfresh2
        (by omega), hins]
      simp only [List.length_cons]
      congr 1
      omega
    · have hstep := categorize_overflow0 cats p hne hpat hlt
      have hfresh2 : ∀ q ∈ rest, firstWordLower q ∉ cats :=
        fun q hq => hfresh q (List.mem_cons_of_mem p hq)
      rw [hstep.2, ih cats hgood2 hdist2 hfresh2 hlen]
      simp only [List.length_cons]
      have hcl : cats.length = MaxPromptCategories := le_antisymm hlen (Nat.not_lt.mp hlt)
      rw [hcl, min_eq_right (Nat.le_add_right _ _), min_eq_right (Nat.le_add_right _ _)]

/-- First counterexample prompt: first word `Zq1`. -/
def c4p1 : List Char := "Zq1 x".toList

/-- Second counterexample prompt: first word `zq1`. -/
def c4p2 : List Char := "zq1 y".toList

/-- Counterexample to C4 as stated: the prompts `Zq1 x` and `zq1 y` are
distinct, never seen, nonempty, match no fixed pattern, and have distinct
first words (`Zq1` vs `zq1`), yet starting from the fresh categorizer they
create one dynamic category, not `min 2 50 = 2`: the code keys dynamic
categories on the lowercased first word. -/
theorem c4_counterexample :
    c4p1 ≠ c4p2 ∧
    (fieldsOf c4p1).headI = "Zq1".toList ∧
    (fieldsOf c4p2).headI = "zq1".toList ∧
    (fieldsOf c4p1).headI ≠ (fieldsOf c4p2).headI ∧
    c4p1 ≠ [] ∧ c4p2 ≠ [] ∧
    patternMatch (lowerize c4p1) = none ∧
    patternMatch (lowerize c4p2) = none ∧
    (runCats [] [c4p1, c4p2]).length = 1 ∧
    (runCats [] [c4p1, c4p2]).length ≠ min 2 MaxPromptCategories := by
  decide

/-- C4 (amended): for N distinct never-seen nonempty non-pattern prompts
whose LOWERCASED first words are pairwise distinct, the fresh categorizer
creates exactly `min N 50` dynamic categories; any nonempty non-pattern
prompt categorized once the set holds 50 entries maps to a bucket of the
form `other_` + 8 hex digits; and the set never exceeds 50 entries and
never shrinks. -/
theorem c4_categorizer_cardinality (ps : List (List Char))
    (hgood : ∀ p ∈ ps, p.isEmpty = false ∧ patternMatch (lowerize p) = none ∧
      fieldsOf p ≠ [])
    (hdist : (ps.map firstWordLower).Pairwise (fun a b => a ≠ b)) :
    (runCats [] ps).length = min ps.length MaxPromptCategories ∧
    (∀ cats p, p.isEmpty = false → patternMatch (lowerize p) = none →
      ¬cats.length < MaxPromptCategories →
      ∃ hx, (categorize cats p).1 = "other_".toList ++ hx ∧ hx.length = 8 ∧
        ∀ c ∈ hx, isHexDigitCh c = true) ∧
    (∀ cats p, cats ⊆ (categorize cats p).2) ∧
    (∀ cats p, cats.length ≤ MaxPromptCategories →
      (categorize cats p).2.length ≤ MaxPromptCategories) := by
  refine ⟨?_, ?_, categorize_mono, categorize_bound⟩
  · have h := runCats_growth ps [] hgood hdist (fun p _ => List.not_mem_nil _)
      (by simp [MaxPromptCategories])
    simpa using h
  · intro cats p hne hpat hfull
    rw [(categorize_overflow0 cats p hne hpat hfull).1]
    exact hashCategory_form (lowerize p)

/-- Witness for the amended C4 on two concrete prompts. -/
theorem c4_categorizer_cardinality_witness :
    (runCats [] ["aq bq".toList, "bq cq".toList]).length
      = min ([("aq bq".toList : List Char), "bq cq".toList] : List (List Char)).length
          MaxPromptCategories ∧
    (∀ cats p, p.isEmpty = false → patternMatch (lowerize p) = none →
      ¬cats.length < MaxPromptCategories →
      ∃ hx, (categorize cats p).1 = "other_".toList ++ hx ∧ hx.length = 8 ∧
        ∀ c ∈ hx, isHexDigitCh c = true) ∧
    (∀ cats p, cats ⊆ (categorize cats p).2) ∧
    (∀ cats p, cats.length ≤ MaxPromptCategories →
      (categorize cats p).2.length ≤ MaxPromptCategories) :=
  c4_categorizer_cardinality ["aq bq".toList, "bq cq".toList] (by decide) (by decide)

/-- Membership in the swept store: exactly the in-window records survive. -/
theorem sweepStore_mem (now : Int) (store : List SRec) (r : SRec) :
    r ∈ sweepStore now store ↔ r ∈ store ∧ retentionCutoff now ≤ r.ts := by
  simp [sweepStore, List.mem_filter, Int.not_lt]

/-- Membership through the newest-first insertion. -/
theorem insertByTsDesc_mem (r x : SRec) (l : List SRec) :
    x ∈ insertByTsDesc r l ↔ x = r ∨ x ∈ l := by
  induction l with
  | nil => simp [insertByTsDesc]
  | cons a t ih =>
    unfold insertByTsDesc
    split
    · simp [List.mem_cons]
    · rw [List.mem_cons, ih, List.mem_cons]
      tauto

/-- Sorting newest-first preserves membership. -/
theorem sortByTsDesc_mem (l : List SRec) (x : SRec) :
    x ∈ sortByTsDesc l ↔ x ∈ l := by
  induction l with
  | nil => simp [sortByTsDesc]
  | cons a t ih =>
    have he : sortByTsDesc (a :: t) = insertByTsDesc a (sortByTsDesc t) := rfl
    rw [he, insertByTsDesc_mem, ih, List.mem_cons]

/-- Newest-first insertion adds one element. -/
theorem insertByTsDesc_length (r : SRec) (m : List SRec) :
    (insertByTsDesc r m).length = m.length + 1 := by
  induction m with
  | nil => rfl
  | cons a t ih =>
    unfold insertByTsDesc
    split
    · rfl
    · simp only [List.length_cons, ih]

/-- Sorting newest-first preserves length. -/
theorem sortByTsDesc_length (l : List SRec) : (sortByTsDesc l).length = l.length := by
  induction l with
  | nil => rfl
  | cons a t ih =>
    have he : sortByTsDesc (a :: t) = insertByTsDesc a (sortByTsDesc t) := rfl
    rw [he, insertByTsDesc_length, ih, List.length_cons]

/-- Every `Search` result comes from the store and passes the filters. -/
theorem searchStore_sub (store : List SRec) (f : SFilters) (r : SRec)
    (h : r ∈ searchStore store f) : r ∈ store ∧ matchesF f r = true := by
  unfold searchStore at h
  have h2 := List.take_subset _ _ h
  rw [sortByTsDesc_mem, List.mem_filter] at h2
  exact h2

/-- A stored record that passes the filters appears in the `Search` result
when the matching set fits under the limit. -/
theorem searchStore_full (store : List SRec) (f : SFilters) (r : SRec)
    (hr : r ∈ store) (hm : matchesF f r = true)
    (hlim : (store.filter (matchesF f)).length ≤ f.limit) :
    r ∈ searchStore store f := by
  unfold searchStore
  rw [List.take_of_length_le]
  · rw [sortByTsDesc_mem, List.mem_filter]
    exact ⟨hr, hm⟩
  · rw [sortByTsDesc_length]
    exact hlim

/-- C7: after a successful sweep tick, exactly the records older than the
7-day retention window are deleted — old records are absent from every
subsequent Search result, in-window records are kept unchanged and are
returned by a Search they match (capacity permitting) — and a failed delete
leaves the store unchanged, the loop retrying on the next tick. -/
theorem c7_retention_sweep (now : Int) (store : List SRec) :
    (∀ r, r ∈ sweepStore now store ↔ r ∈ store ∧ retentionCutoff now ≤ r.ts) ∧
    (∀ f r, r ∈ searchStore (sweepStore now store) f → retentionCutoff now ≤ r.ts) ∧
    (∀ f r, r ∈ store → retentionCutoff now ≤ r.ts → matchesF f r = true →
      ((sweepStore now store).filter (matchesF f)).length ≤ f.limit →
      r ∈ searchStore (sweepStore now store) f) ∧
    (∀ t1, cleanupTick false t1 store = store) ∧
    runTicks [(false, now - 3600), (true, now)] store = sweepStore now store := by
  refine ⟨sweepStore_mem now store, ?_, ?_, fun t1 => rfl, rfl⟩
  · intro f r h
    exact ((sweepStore_mem now store r).mp (searchStore_sub _ f r h).1).2
  · intro f r hr hts hm hlim
    exact searchStore_full _ f r ((sweepStore_mem now store r).mpr ⟨hr, hts⟩) hm hlim

/-- A record outside the retention window at the witness sweep time. -/
def srecOld : SRec := { ts := 0, model := "m".toList, prompt := "p".toList }

/-- A record inside the retention window at the witness sweep time. -/
def srecNew : SRec := { ts := 1209600, model := "m".toList, prompt := "p".toList }

/-- The empty `Search` filter set with the default limit 100. -/
def f0 : SFilters := ⟨none, none, none, none, 100⟩

/-- Witness for C7: sweeping at `t = 1209600` (cutoff `604800`) keeps the
in-window record visible to Search, drops the old one, and a failed tick
leaves the store untouched. -/
theorem c7_retention_sweep_witness :
    srecNew ∈ searchStore (sweepStore 1209600 [srecOld, srecNew]) f0 ∧
    cleanupTick false 0 [srecOld, srecNew] = [srecOld, srecNew] ∧
    ¬ srecOld ∈ sweepStore 1209600 [srecOld, srecNew] :=
  ⟨(c7_retention_sweep 1209600 [srecOld, srecNew]).2.2.1 f0 srecNew (by decide) (by decide)
      (by decide) (by decide),
   (c7_retention_sweep 1209600 [srecOld, srecNew]).2.2.2.1 0,
   fun hmem => by
     have h := ((c7_retention_sweep 1209600 [srecOld, srecNew]).1 srecOld).mp hmem
     exact absurd h.2 (by decide)⟩

/-- C8 (documents the code bug): over an empty window the basic-stats SQL
aggregates are NULL, the Go `Scan` into `float64` fails, and the handler
answers HTTP 500 — not the `total_requests = 0` payload with empty top
lists that the specification promises. -/
theorem c8_enhanced_stats_empty_window_is_500 :
    handleStatsEnhanced (some "1".toList) []
      = HttpOut.httpError 500
          "sql: Scan error: converting NULL to float64 is unsupported".toList ∧
    parseHoursParam (some "1".toList) = 1 ∧
    (basicStatsQuery []).totalRequests = 0 ∧
    (basicStatsQuery []).avgResponseMs = none :=
  ⟨rfl, rfl, rfl, rfl⟩

/-- A body that parses to a JSON object is nonempty. -/
theorem jsonParse_obj_ne_nil (body : List Char) (v : Jval)
    (hj : jsonParse body = some v) : body.isEmpty = false := by
  cases body with
  | nil =>
    have hn : jsonParse ([] : List Char) = none := rfl
    rw [hn] at hj
    cases hj
  | cons a t => rfl

/-- A JSON object lacking a string `model` field yields the default model. -/
theorem extractModel_default (fs : List (List Char × Jval))
    (hm : ∀ m, objGet fs "model".toList ≠ some (Jval.jstr m)) :
    extractModel fs = "unknown".toList := by
  unfold extractModel
  cases hv : objGet fs "model".toList with
  | none => rfl
  | some v =>
    cases v with
    | jstr m => exact absurd hv (hm m)
    | jnull => rfl
    | jbool b => rfl
    | jnum q => rfl
    | jarr xs => rfl
    | jobj o => rfl

/-- Without a string `prompt` field, the prompt comes from the `messages`
fallback. -/
theorem extractPrompt_no_field (fs : List (List Char × Jval))
    (hp : ∀ p, objGet fs "prompt".toList ≠ some (Jval.jstr p)) :
    extractPrompt fs = extractMessages fs := by
  unfold extractPrompt
  cases hv : objGet fs "prompt".toList with
  | none => rfl
  | some v =>
    cases v with
    | jstr p => exact absurd hv (hp p)
    | jnull => rfl
    | jbool b => rfl
    | jnum q => rfl
    | jarr xs => rfl
    | jobj o => rfl

/-- The `messages` fallback is empty whenever no string content can be
extracted: no `messages` array, or an empty one, or a last entry that is
not an object, or one without a string `content` field. -/
theorem extractMessages_default (fs : List (List Char × Jval))
    (hrest : (∀ ms, objGet fs "messages".toList ≠ some (Jval.jarr ms)) ∨
      ∃ ms, objGet fs "messages".toList = some (Jval.jarr ms) ∧
        (ms = [] ∨ (∀ mf, ms.getLast? ≠ some (Jval.jobj mf)) ∨
         ∃ mf, ms.getLast? = some (Jval.jobj mf) ∧
           ∀ c, objGet mf "content".toList ≠ some (Jval.jstr c))) :
    extractMessages fs = [] := by
  unfold extractMessages
  rcases hrest with hno | ⟨ms, hms, hcase⟩
  · cases hv : objGet fs "messages".toList with
    | none => rfl
    | some v =>
      cases v with
      | jarr ms => exact absurd hv (hno ms)
      | jnull => rfl
      | jbool b => rfl
      | jnum q => rfl
      | jstr s => rfl
      | jobj o => rfl
  · rw [hms]
    dsimp only
    rcases hcase with rfl | hnoobj | ⟨mf, hlast, hnoc⟩
    · rfl
    · by_cases he : ms.isEmpty
      · simp [he]
      · have he2 : ms.isEmpty = false := by simpa using he
        simp only [he2, Bool.false_eq_true, if_false]
    · by_cases he : ms.isEmpty
      · simp [he]
      · have he2 : ms.isEmpty = false := by simpa using he
        simp only [he2, Bool.false_eq_true, if_false]
        rw [hlast]
        dsimp only
        cases hc : objGet mf "content".toList with
        | none => rfl
        | some v =>
          cases v with
          | jstr c => exact absurd hc (hnoc c)
          | jnull => rfl
          | jbool b => rfl
          | jnum q => rfl
          | jarr xs => rfl
          | jobj o => rfl

/-- C9: `parseRequest` is total and never fails the request: an empty,
unparsable or non-object body yields model `unknown` and an empty prompt; a
string `model` field is returned as the model, and an object lacking one
also defaults to `unknown`; a string `prompt` field wins as the prompt,
else the string `content` of the last entry of a nonempty `messages`
array, and an object lacking both yields the empty prompt; the endpoint is
the URL path with the leading slash and one leading `api/` segment
stripped. -/
theorem c9_parse_request_total (path body : List Char) :
    ((body = [] ∨ ∀ v, jsonParse body = some v → ∀ fs, v ≠ Jval.jobj fs) →
      (parseRequest path body).model = "unknown".toList ∧
      (parseRequest path body).prompt = []) ∧
    (∀ fs m, jsonParse body = some (Jval.jobj fs) →
      objGet fs "model".toList = some (Jval.jstr m) →
      (parseRequest path body).model = m) ∧
    (∀ fs, jsonParse body = some (Jval.jobj fs) →
      (∀ m, objGet fs "model".toList ≠ some (Jval.jstr m)) →
      (parseRequest path body).model = "unknown".toList) ∧
    (∀ fs p, jsonParse body = some (Jval.jobj fs) →
      objGet fs "prompt".toList = some (Jval.jstr p) →
      (parseRequest path body).prompt = p) ∧
    (∀ fs ms mf c, jsonParse body = some (Jval.jobj fs) →
      (∀ p, objGet fs "prompt".toList ≠ some (Jval.jstr p)) →
      objGet fs "messages".toList = some (Jval.jarr ms) →
      ms ≠ [] →
      ms.getLast? = some (Jval.jobj mf) →
      objGet mf "content".toList = some (Jval.jstr c) →
      (parseRequest path body).prompt = c) ∧
    (∀ fs, jsonParse body = some (Jval.jobj fs) →
      (∀ p, objGet fs "prompt".toList ≠ some (Jval.jstr p)) →
      ((∀ ms, objGet fs "messages".toList ≠ some (Jval.jarr ms)) ∨
        ∃ ms, objGet fs "messages".toList = some (Jval.jarr ms) ∧
          (ms = [] ∨ (∀ mf, ms.getLast? ≠ some (Jval.jobj mf)) ∨
           ∃ mf, ms.getLast? = some (Jval.jobj mf) ∧
             ∀ c, objGet mf "content".toList ≠ some (Jval.jstr c))) →
      (parseRequest path body).prompt = []) ∧
    (∀ s, (parseRequest ('/' :: 'a' :: 'p' :: 'i' :: '/' :: s) body).endpt = s) ∧
    (∀ s, leadsWith "api/".toList s = false →
      (parseRequest ('/' :: s) body).endpt = s) := by
  have hmp : ∀ fs, jsonParse body = some (Jval.jobj fs) →
      parseBody body = (extractModel fs, extractPrompt fs) := by
    intro fs hj
    have hbe := jsonParse_obj_ne_nil body _ hj
    unfold parseBody
    simp [hbe, hj]
  refine ⟨?_, ?_, ?_, ?_, ?_, ?_, ?_, ?_⟩
  · intro hcase
    rcases hcase with hb | hno
    · subst hb
      exact ⟨rfl, rfl⟩
    · by_cases hbe : body.isEmpty
      · constructor
        · show (parseBody body).1 = "unknown".toList
          unfold parseBody
          simp [hbe]
        · show (parseBody body).2 = []
          unfold parseBody
          simp [hbe]
      · have hbe2 : body.isEmpty = false := by simpa using hbe
        have hpb : parseBody body = ("unknown".toList, []) := by
          unfold parseBody
          cases hj : jsonParse body with
          | none => simp [hbe2]
          | some v =>
            cases v with
            | jobj fs => exact absurd rfl (hno (Jval.jobj fs) hj fs)
            | jnull => simp [hbe2]
            | jbool b => simp [hbe2]
            | jnum q => simp [hbe2]
            | jstr s => simp [hbe2]
            | jarr xs => simp [hbe2]
        exact ⟨congrArg Prod.fst hpb, congrArg Prod.snd hpb⟩
  · intro fs m hj hm
    show (parseBody body).1 = m
    rw [hmp fs hj]
    show extractModel fs = m
    unfold extractModel
    rw [hm]
  · intro fs hj hm
    show (parseBody body).1 = "unknown".toList
    rw [hmp fs hj]
    exact extractModel_default fs hm
  · intro fs p hj hp
    show (parseBody body).2 = p
    rw [hmp fs hj]
    show extractPrompt fs = p
    unfold extractPrompt
    rw [hp]
  · intro fs ms mf c hj hp hms hmsne hlast hc
    have hmse : ms.isEmpty = false := by
      cases ms with
      | nil => exact absurd rfl hmsne
      | cons a t => rfl
    show (parseBody body).2 = c
    rw [hmp fs hj]
    show extractPrompt fs = c
    rw [extractPrompt_no_field fs hp]
    unfold extractMessages
    rw [hms]
    dsimp only
    rw [hmse]
    simp only [Bool.false_eq_true, if_false]
    rw [hlast]
    dsimp only
    rw [hc]
  · intro fs hj hp hrest
    show (parseBody body).2 = []
    rw [hmp fs hj]
    show extractPrompt fs = []
    rw [extractPrompt_no_field fs hp]
    exact extractMessages_default fs hrest
  · intro s
    rfl
  · intro s hs
    show stripEndpoint ('/' :: s) = s
    unfold stripEndpoint
    have hs2 : leadsWith ['a', 'p', 'i', '/'] s = false := hs
    simp [trimLead, leadsWith, hs2]

/-- A body that is a JSON object with a `prompt` field but no `model` and
no `messages` field. -/
def c9BodyNoModel : List Char := "\x7b\"prompt\":\"zq\"\x7d".toList

/-- Witness for C9: the scenario body yields its prompt field; a body whose
object lacks a `model` field defaults to `unknown`, and one lacking
`prompt` and `messages` would default to the empty prompt; a path without
an `api/` segment keeps its endpoint after the slash. -/
theorem c9_parse_request_total_witness :
    (parseRequest c2Path c2Body).prompt = "Summarize this article".toList ∧
    (parseRequest c2Path c9BodyNoModel).model = "unknown".toList ∧
    (parseRequest ('/' :: "tags".toList) c2Body).endpt = "tags".toList :=
  ⟨(c9_parse_request_total c2Path c2Body).2.2.2.1 _ "Summarize this article".toList rfl rfl,
   (c9_parse_request_total c2Path c9BodyNoModel).2.2.1 _ rfl
     (fun m hm => Option.noConfusion hm),
   (c9_parse_request_total c2Path c2Body).2.2.2.2.2.2.2 "tags".toList (by decide)⟩

end Theorems

end OllamaProxy
